import Mathlib

/-!
Verification of the `bytesize` Go package: a 128-bit byte-size type with
string parsing ("10 MB", "5.5 GiB", …) and human-readable formatting.
The definitions below are a shallow embedding of `bytesize.go` (and of the
unit-lookup variants file): machine integers become `Nat` with explicit
`% 2^64` / `% 2^128` where the code narrows, `big.Rat` arithmetic becomes
exact natural/rational arithmetic, and fallible functions return `Except`.
-/

deriving instance DecidableEq for Except

namespace Bytesize

/-- Parse-side error kinds, one per distinct `fmt.Errorf` site in `Parse` /
`getNumAndUnitRunes` / `getMultiplierForUnitString`. -/
inductive PErr where
  | emptyString
  | multipleDecimalPoints
  | unknownUnit
  | emptyNumericPart
  | invalidNumber
  | negativeValue
  | overflow
deriving DecidableEq, Repr

/-- Format-side error kinds, one per `fmt.Errorf` site in the format options. -/
inductive FErr where
  | emptyFormatString
  | invalidForcedUnit
deriving DecidableEq, Repr

/-- Modelled from the spec: the repository's `Uint128` type (its defining file
is not part of the sources here) — "a pair of unsigned 64-bit words, `lo`
(bits 0–63) and `hi` (bits 64–127); logical value = `hi·2^64 + lo`" (§3). -/
structure Uint128 where
  Lo : Nat
  Hi : Nat
deriving DecidableEq, Repr

/-- Logical value of a `Uint128` word pair (spec §3). -/
def Uint128.toNat (a : Uint128) : Nat := a.Hi * 2 ^ 64 + a.Lo

/-- Narrowing of an integer into the word pair, as done at the end of
`Parse`: `lo` = low 64 bits, `hi` = the next 64 bits. -/
def Uint128.ofNat (n : Nat) : Uint128 := ⟨n % 2 ^ 64, n / 2 ^ 64 % 2 ^ 64⟩

/-- Modelled from the spec: `mulScalarUnchecked` (§4.1), used only to build
the fixed unit ladder where the result is known in advance to fit 128 bits;
the value wraps modulo 2^128 like the word-pair arithmetic it stands for. -/
def Uint128.Mul64 (a : Uint128) (k : Nat) : Uint128 :=
  Uint128.ofNat (a.toNat * k % 2 ^ 128)

/-- Modelled from the spec: `compare` (§4.1) — "compare `hi` words first,
then `lo` words if high words are equal". -/
def Uint128.Cmp (a b : Uint128) : Ordering :=
  match compare a.Hi b.Hi with
  | .eq => compare a.Lo b.Lo
  | o => o

/-- `type Bytes Uint128`. -/
abbrev Bytes := Uint128

-- Decimal byte size units (powers of 10), built exactly as in the source.
def None' : Bytes := ⟨0, 0⟩
def One : Bytes := ⟨1, 0⟩
def B : Bytes := One
def KB : Bytes := Uint128.Mul64 B 1000
def MB : Bytes := Uint128.Mul64 KB 1000
def GB : Bytes := Uint128.Mul64 MB 1000
def TB : Bytes := Uint128.Mul64 GB 1000
def PB : Bytes := Uint128.Mul64 TB 1000
def EB : Bytes := Uint128.Mul64 PB 1000
def ZB : Bytes := Uint128.Mul64 EB 1000
def YB : Bytes := Uint128.Mul64 ZB 1000
def RB : Bytes := Uint128.Mul64 YB 1000
def QB : Bytes := Uint128.Mul64 RB 1000

-- Binary byte size units (powers of 2); `math.Pow(1024, n)` is exact for
-- these arguments, and the three largest are built from the high word.
def KiB : Bytes := ⟨1024, 0⟩
def MiB : Bytes := ⟨1024 ^ 2, 0⟩
def GiB : Bytes := ⟨1024 ^ 3, 0⟩
def TiB : Bytes := ⟨1024 ^ 4, 0⟩
def PiB : Bytes := ⟨1024 ^ 5, 0⟩
def EiB : Bytes := ⟨1024 ^ 6, 0⟩
def ZiB : Bytes := ⟨0, 2 ^ 6⟩
def YiB : Bytes := ⟨0, 2 ^ 16⟩
def RiB : Bytes := ⟨0, 2 ^ 26⟩
def QiB : Bytes := ⟨0, 2 ^ 36⟩

/-- `ValidUnits` — all supported unit strings for parsing. -/
def ValidUnits : List String :=
  ["b",
   "kb", "mb", "gb", "tb", "pb", "eb", "zb", "yb", "rb", "qb",
   "kib", "mib", "gib", "tib", "pib", "eib", "zib", "yib", "rib", "qib",
   "byte", "bytes",
   "kilobyte", "kilobytes", "megabyte", "megabytes", "gigabyte", "gigabytes",
   "terabyte", "terabytes", "petabyte", "petabytes",
   "exabyte", "exabytes", "zettabyte", "zettabytes", "yottabyte", "yottabytes",
   "ronnabyte", "ronnabytes", "quettabyte", "quettabytes",
   "kibibyte", "kibibytes", "mebibyte", "mebibytes", "gibibyte", "gibibytes",
   "tebibyte", "tebibytes", "pebibyte", "pebibytes",
   "exbibyte", "exbibytes", "zebibyte", "zebibytes", "yobibyte", "yobibytes",
   "ronnibyte", "ronnibytes", "quettibyte", "quettibytes"]

/-- `unicode.IsSpace` restricted to the Latin-1 range (covers every
whitespace character this package's inputs and outputs use): space, tab,
newline, vertical tab, form feed, carriage return, NEL and NBSP, by code
point. -/
def goIsSpace (c : Char) : Bool :=
  c.toNat = 32 || c.toNat = 9 || c.toNat = 10 || c.toNat = 11 ||
  c.toNat = 12 || c.toNat = 13 || c.toNat = 133 || c.toNat = 160

/-- `strings.TrimSpace` on the character list of a string. -/
def goTrimSpace (l : List Char) : List Char :=
  ((l.dropWhile goIsSpace).reverse.dropWhile goIsSpace).reverse

/-- `strings.ToLower`; the unit vocabulary is ASCII, where Go's lowering
and `Char.toLower` agree. -/
def goToLower (l : List Char) : List Char := l.map Char.toLower

/-- Normalization shared by the unit-lookup functions:
`strings.ToLower(strings.TrimSpace(unitStr))`. -/
def normalizeUnit (s : String) : String :=
  String.mk (goToLower (goTrimSpace s.toList))

/-- `IsValidUnit`. -/
def IsValidUnit (unit : String) : Bool :=
  ValidUnits.contains (normalizeUnit unit)

/-- The character test of the scanning loop in `getNumAndUnitRunes`:
`r == '-' || (r >= '0' && r <= '9') || r == '.'`, by code point
(45 = `-`, 48–57 = `0`–`9`, 46 = `.`). -/
def isNumRune (c : Char) : Bool :=
  c.toNat = 45 || (48 ≤ c.toNat && c.toNat ≤ 57) || c.toNat = 46

/-- The scanning loop of `getNumAndUnitRunes`: skip spaces, route digits,
`-` and at most one `.` to the numeric buffer, everything else to the unit
buffer. -/
def scanRunes : List Char → Bool → List Char → List Char →
    Except PErr (List Char × List Char)
  | [], _, nums, units => .ok (nums, units)
  | c :: rest, foundDot, nums, units =>
    if goIsSpace c then
      scanRunes rest foundDot nums units
    else if isNumRune c then
      if c = '.' then
        if foundDot then .error .multipleDecimalPoints
        else scanRunes rest true (nums ++ [c]) units
      else scanRunes rest foundDot (nums ++ [c]) units
    else
      scanRunes rest foundDot nums (units ++ [c])

/-- `getNumAndUnitRunes`. -/
def getNumAndUnitRunes (l : List Char) : Except PErr (List Char × List Char) :=
  scanRunes l false [] []

/-- `'0' <= c && c <= '9'`, by code point. -/
def isDigitChar (c : Char) : Bool := 48 ≤ c.toNat && c.toNat ≤ 57

/-- Numeric value of a digit string, most significant digit first. -/
def digitsVal (l : List Char) : Nat :=
  l.foldl (fun acc c => acc * 10 + (c.toNat - 48)) 0

/-- The mantissa grammar accepted by `big.Rat.SetString` for strings drawn
from the scanner's numeric alphabet (digits and at most one point, no sign):
`digits [. digits]` with at least one digit overall. Returns the numerator
over `10^k` together with `k`, the number of fractional digits. -/
def parseMantissa (cs : List Char) : Option (Nat × Nat) :=
  let intPart := cs.takeWhile isDigitChar
  let rest := cs.dropWhile isDigitChar
  match rest with
  | [] => if intPart = [] then none else some (digitsVal intPart, 0)
  | '.' :: frac =>
    if frac.all isDigitChar then
      if intPart = [] && frac = [] then none
      else some (digitsVal (intPart ++ frac), frac.length)
    else none
  | _ => none

/-- `big.Rat.SetString` on the numeric buffer (whose alphabet is digits,
`-` and at most one `.`): an optional leading sign followed by a mantissa.
Returns (negative?, numerator, fractional digit count). -/
def ratSetString (cs : List Char) : Option (Bool × Nat × Nat) :=
  match cs with
  | '-' :: rest => (parseMantissa rest).map (fun p => (true, p.1, p.2))
  | _ => (parseMantissa cs).map (fun p => (false, p.1, p.2))

/-- `getMultiplierForUnitString` — the switch-based unit lookup. -/
def getMultiplierForUnitString (unitStr : String) : Except PErr Bytes :=
  match normalizeUnit unitStr with
  | "b" => .ok B
  | "kb" => .ok KB
  | "mb" => .ok MB
  | "gb" => .ok GB
  | "tb" => .ok TB
  | "pb" => .ok PB
  | "eb" => .ok EB
  | "zb" => .ok ZB
  | "yb" => .ok YB
  | "rb" => .ok RB
  | "qb" => .ok QB
  | "kib" => .ok KiB
  | "mib" => .ok MiB
  | "gib" => .ok GiB
  | "tib" => .ok TiB
  | "pib" => .ok PiB
  | "eib" => .ok EiB
  | "zib" => .ok ZiB
  | "yib" => .ok YiB
  | "rib" => .ok RiB
  | "qib" => .ok QiB
  | "byte" => .ok B
  | "bytes" => .ok B
  | "kilobyte" => .ok KB
  | "kilobytes" => .ok KB
  | "megabyte" => .ok MB
  | "megabytes" => .ok MB
  | "gigabyte" => .ok GB
  | "gigabytes" => .ok GB
  | "terabyte" => .ok TB
  | "terabytes" => .ok TB
  | "petabyte" => .ok PB
  | "petabytes" => .ok PB
  | "exabyte" => .ok EB
  | "exabytes" => .ok EB
  | "zettabyte" => .ok ZB
  | "zettabytes" => .ok ZB
  | "yottabyte" => .ok YB
  | "yottabytes" => .ok YB
  | "ronnabyte" => .ok RB
  | "ronnabytes" => .ok RB
  | "quettabyte" => .ok QB
  | "quettabytes" => .ok QB
  | "kibibyte" => .ok KiB
  | "kibibytes" => .ok KiB
  | "mebibyte" => .ok MiB
  | "mebibytes" => .ok MiB
  | "gibibyte" => .ok GiB
  | "gibibytes" => .ok GiB
  | "tebibyte" => .ok TiB
  | "tebibytes" => .ok TiB
  | "pebibyte" => .ok PiB
  | "pebibytes" => .ok PiB
  | "exbibyte" => .ok EiB
  | "exbibytes" => .ok EiB
  | "zebibyte" => .ok ZiB
  | "zebibytes" => .ok ZiB
  | "yobibyte" => .ok YiB
  | "yobibytes" => .ok YiB
  | "ronnibyte" => .ok RiB
  | "ronnibytes" => .ok RiB
  | "quettibyte" => .ok QiB
  | "quettibytes" => .ok QiB
  | _ => .error .unknownUnit

/-- `Parse`: trim, scan into numeric/unit buffers, resolve the unit, parse
the numeral as an exact rational, multiply, truncate (`big.Int.Div` on
non-negative operands), check the 128-bit width, and narrow. -/
def Parse (s : String) : Except PErr Bytes :=
  let t := goTrimSpace s.toList
  if t = [] then .error .emptyString
  else
    match getNumAndUnitRunes t with
    | .error e => .error e
    | .ok (numRunes, unitRunes) =>
      match getMultiplierForUnitString (String.mk unitRunes) with
      | .error e => .error e
      | .ok multiplier =>
        if numRunes = [] then .error .emptyNumericPart
        else
          match ratSetString numRunes with
          | none => .error .invalidNumber
          | some (neg, n, k) =>
            if neg ∧ 0 < n then .error .negativeValue
            else
              -- resultInt = ⌊numRat · multiplier⌋; with a non-negative
              -- numerator this is natural floor division by `10^k`.
              let resultInt := n * multiplier.toNat / 10 ^ k
              -- `resultInt.BitLen() > 128` is exactly `2^128 ≤ resultInt`.
              if 2 ^ 128 ≤ resultInt then .error .overflow
              else .ok (Uint128.ofNat resultInt)

-- Unit-name tables; Go maps with distinct keys become association lists.

/-- `LongDecimal`. -/
def LongDecimal : List (Bytes × String) :=
  [(KB, "Kilobyte"), (MB, "Megabyte"), (GB, "Gigabyte"), (TB, "Terabyte"),
   (PB, "Petabyte"), (EB, "Exabyte"), (ZB, "Zettabyte"), (YB, "Yottabyte"),
   (RB, "Ronnabyte"), (QB, "Quettabyte")]

/-- `ShortDecimal`. -/
def ShortDecimal : List (Bytes × String) :=
  [(KB, "KB"), (MB, "MB"), (GB, "GB"), (TB, "TB"), (PB, "PB"), (EB, "EB"),
   (ZB, "ZB"), (YB, "YB"), (RB, "RB"), (QB, "QB")]

/-- `LongBinary`. -/
def LongBinary : List (Bytes × String) :=
  [(KiB, "Kibibyte"), (MiB, "Mebibyte"), (GiB, "Gibibyte"), (TiB, "Tebibyte"),
   (PiB, "Pebibyte"), (EiB, "Exbibyte"), (ZiB, "Zebibyte"), (YiB, "Yobibyte"),
   (RiB, "Ronnibyte"), (QiB, "Quettibyte")]

/-- `ShortBinary`. -/
def ShortBinary : List (Bytes × String) :=
  [(KiB, "KiB"), (MiB, "MiB"), (GiB, "GiB"), (TiB, "TiB"), (PiB, "PiB"),
   (EiB, "EiB"), (ZiB, "ZiB"), (YiB, "YiB"), (RiB, "RiB"), (QiB, "QiB")]

/-- Lookup in a unit-name map (`unitMap[bestUnit]`). -/
def lookupName : List (Bytes × String) → Bytes → Option String
  | [], _ => none
  | (u, n) :: rest, k => if u = k then some n else lookupName rest k

/-- `formatOptions`. -/
structure formatOptions where
  formatStr : String
  forcedUnitType : Option Bytes
  longUnits : Bool
  decimalUnits : Bool
deriving DecidableEq, Repr

def DefaultFormatStr : String := "%.2f %s"
def DefaultLongUnits : Bool := false
def DefaultDecimalUnits : Bool := true

/-- `newFormatOptions`. -/
def newFormatOptions : formatOptions :=
  { formatStr := DefaultFormatStr, forcedUnitType := none,
    longUnits := DefaultLongUnits, decimalUnits := DefaultDecimalUnits }

/-- `FormatOption`: a functional option transforming the configuration. -/
def FormatOption := formatOptions → Except FErr formatOptions

/-- `WithFormatString`. -/
def WithFormatString (formatStr : String) : FormatOption := fun opts =>
  if formatStr = "" then .error .emptyFormatString
  else .ok { opts with formatStr := formatStr }

/-- `WithForcedUnit`: the forced unit must be a registered decimal or binary
unit; selecting it also fixes the family flag. -/
def WithForcedUnit (unit : Bytes) : FormatOption := fun opts =>
  if unit = B ∨ unit = KB ∨ unit = MB ∨ unit = GB ∨ unit = TB ∨ unit = PB ∨
     unit = EB ∨ unit = ZB ∨ unit = YB ∨ unit = RB ∨ unit = QB then
    .ok { opts with decimalUnits := true, forcedUnitType := some unit }
  else if unit = KiB ∨ unit = MiB ∨ unit = GiB ∨ unit = TiB ∨ unit = PiB ∨
     unit = EiB ∨ unit = ZiB ∨ unit = YiB ∨ unit = RiB ∨ unit = QiB then
    .ok { opts with decimalUnits := false, forcedUnitType := some unit }
  else .error .invalidForcedUnit

/-- `WithLongUnits`. -/
def WithLongUnits (longUnits : Bool) : FormatOption := fun opts =>
  .ok { opts with longUnits := longUnits }

/-- `WithDecimalUnits`. -/
def WithDecimalUnits (decimalUnits : Bool) : FormatOption := fun opts =>
  .ok { opts with decimalUnits := decimalUnits }

/-- The option-application loop at the top of `format`: left to right,
stopping at the first error. -/
def applyOpts : List FormatOption → formatOptions → Except FErr formatOptions
  | [], opts => .ok opts
  | f :: fs, opts =>
    match f opts with
    | .error e => .error e
    | .ok opts2 => applyOpts fs opts2

/-- The descending decimal unit ladder used by `format`. -/
def decimalUnitSlice : List Bytes := [QB, RB, YB, ZB, EB, PB, TB, GB, MB, KB, B]

/-- The descending binary unit ladder used by `format`. -/
def binaryUnitSlice : List Bytes := [QiB, RiB, YiB, ZiB, EiB, PiB, TiB, GiB, MiB, KiB, B]

/-- The unit-selection loop in `format`: the first ladder unit `u` with
`b.Cmp(u) >= 0`, else the zero value. -/
def findUnit : List Bytes → Bytes → Bytes
  | [], _ => ⟨0, 0⟩
  | u :: rest, b => if Uint128.Cmp b u ≠ .lt then u else findUnit rest b

/-- Automatic unit selection in `format`: scan the ladder, and if nothing
matched (the loop left `bestUnit` at the zero value) fall back to `B`. -/
def selectBestUnit (unitSlice : List Bytes) (b : Bytes) : Bytes :=
  let best := findUnit unitSlice b
  if best.Lo = 0 ∧ best.Hi = 0 then B else best

/-- Decimal digit character. -/
def digitChar (d : Nat) : Char :=
  if d = 0 then '0' else if d = 1 then '1' else if d = 2 then '2'
  else if d = 3 then '3' else if d = 4 then '4' else if d = 5 then '5'
  else if d = 6 then '6' else if d = 7 then '7' else if d = 8 then '8'
  else '9'

/-- Decimal digit list of a natural number, most significant first; the
fuel argument (any bound above the digit count) keeps the recursion
structural. -/
def natToDigitsAux : Nat → Nat → List Char
  | 0, _ => []
  | fuel + 1, n =>
    if n < 10 then [digitChar n]
    else natToDigitsAux fuel (n / 10) ++ [digitChar (n % 10)]

def natToDigits (n : Nat) : List Char := natToDigitsAux (n + 1) n

def natToString (n : Nat) : String := String.mk (natToDigits n)

/-- Round `num / den` (both natural) to an integer, to nearest with ties
to even — the `ToNearestEven` rounding used throughout `math/big`, both by
`big.Float` arithmetic and by its decimal conversion
(`decimal.shouldRoundUp` breaks exact halves toward the even digit). -/
def rheDiv (num den : Nat) : Nat :=
  if 2 * (num % den) < den then num / den
  else if den < 2 * (num % den) then num / den + 1
  else if num / den % 2 = 0 then num / den else num / den + 1

/-- Bit length of a natural number (0 for 0); the fuel argument keeps the
recursion structural. -/
def bitlenAux : Nat → Nat → Nat
  | 0, _ => 0
  | fuel + 1, n => if n = 0 then 0 else bitlenAux fuel (n / 2) + 1

def bitlen (n : Nat) : Nat := bitlenAux (n + 1) n

/-- The exponent of the rational `p / q` (both positive): the unique `e`
with `2^(e-1) · q ≤ p < 2^e · q`. -/
def ratExp (p q : Nat) : Int :=
  if q * 2 ^ ((bitlen p : Int) - (bitlen q : Int)).toNat ≤
      p * 2 ^ (-((bitlen p : Int) - (bitlen q : Int))).toNat then
    (bitlen p : Int) - (bitlen q : Int) + 1
  else
    (bitlen p : Int) - (bitlen q : Int)

/-- Round the rational `p / q` (both positive) to 53 significant bits, to
nearest with ties to even, as a mantissa/exponent pair `m · 2^e`: the value
held by a `big.Float` of precision 53 — the precision that `big.NewFloat(0)`
fixes. The scaled mantissa `rheDiv (p · 2^(53-e)) q` sits in
`[2^52, 2^53]`; when rounding pushes it to `2^53` the pair renormalizes.
Returns `(0, 0)` when `p = 0` (and when `q = 0`, which in the code would be
a division by zero and is unreachable: unit magnitudes are nonzero). -/
def roundRat53 (p q : Nat) : Nat × Int :=
  if p = 0 ∨ q = 0 then (0, 0)
  else if rheDiv (p * 2 ^ (-(ratExp p q - 53)).toNat)
      (q * 2 ^ (ratExp p q - 53).toNat) = 2 ^ 53 then
    (2 ^ 52, ratExp p q - 52)
  else
    (rheDiv (p * 2 ^ (-(ratExp p q - 53)).toNat)
      (q * 2 ^ (ratExp p q - 53).toNat), ratExp p q - 53)

/-- `big.NewFloat(0).SetInt(x)`: since `big.NewFloat` fixes the receiver's
precision at 53 bits, `SetInt` rounds the integer to 53 significant bits. -/
def floatOfInt (x : Nat) : Nat × Int := roundRat53 x 1

/-- `big.NewFloat(0).Quo(a, b)`: the exact quotient of the two float
values, rounded to the receiver's 53-bit precision. -/
def floatQuo (a b : Nat × Int) : Nat × Int :=
  if (roundRat53 a.1 b.1).1 = 0 then (0, 0)
  else ((roundRat53 a.1 b.1).1, (roundRat53 a.1 b.1).2 + (a.2 - b.2))

/-- `value.Cmp(big.NewFloat(1)) == 0`: the float value equals 1 exactly. -/
def floatEqOne (a : Nat × Int) : Bool :=
  if 0 ≤ a.2 then a.1 * 2 ^ a.2.toNat == 1 else a.1 == 2 ^ (-a.2).toNat

/-- The `%.2f` rendering of the float value `m · 2^e`: `math/big` converts
the exact (dyadic) float value to decimal, correctly rounded at two
fractional digits with ties to even. -/
def formatFixed2 (a : Nat × Int) : String :=
  let num := a.1 * 2 ^ a.2.toNat
  let den := 2 ^ (-a.2).toNat
  let n := rheDiv (100 * num) den
  natToString (n / 100) ++ "." ++ (if n % 100 < 10 then "0" else "") ++
    natToString (n % 100)

/-- `fmt.Sprintf(template, value, unitName)` for this package's templates:
substitute the `%.2f` verb with the rendered value and the `%s` verb with
the unit name, in one left-to-right pass. -/
def sprintfAux (value : Nat × Int) (name : String) : List Char → List Char
  | '%' :: '.' :: '2' :: 'f' :: rest =>
    (formatFixed2 value).toList ++ sprintfAux value name rest
  | '%' :: 's' :: rest => name.toList ++ sprintfAux value name rest
  | c :: rest => c :: sprintfAux value name rest
  | [] => []

def sprintfValUnit (template : String) (value : Nat × Int) (name : String) : String :=
  String.mk (sprintfAux value name template.toList)

/-- The error-free tail of `format`, once the options are applied: choose
the name table and ladder, pick the unit, compute the display quotient,
resolve the name (falling back to "B"/"Byte" when the unit is absent from
the table), pluralize long names, and render. -/
def renderFormatted (b : Bytes) (opts : formatOptions) : String :=
  let unitMap :=
    if opts.decimalUnits then
      if opts.longUnits then LongDecimal else ShortDecimal
    else
      if opts.longUnits then LongBinary else ShortBinary
  let unitSlice := if opts.decimalUnits then decimalUnitSlice else binaryUnitSlice
  let bestUnit :=
    match opts.forcedUnitType with
    | some u => u
    | none => selectBestUnit unitSlice b
  -- `bFloat := big.NewFloat(0).SetInt(bBig)` etc.: `big.NewFloat(0)` has
  -- precision 53 and mode ToNearestEven, so both operands and the quotient
  -- are rounded to 53 bits.
  let value := floatQuo (floatOfInt (Uint128.toNat b))
    (floatOfInt (Uint128.toNat bestUnit))
  let unitName :=
    match lookupName unitMap bestUnit with
    | some n => n
    | none => if opts.longUnits then "Byte" else "B"
  let unitName :=
    if opts.longUnits && !floatEqOne value then unitName ++ "s" else unitName
  sprintfValUnit opts.formatStr value unitName

/-- `format`: apply the options, then render; only option application can
fail. -/
def format (b : Bytes) (opts : List FormatOption) : Except FErr String :=
  match applyOpts opts newFormatOptions with
  | .error e => .error e
  | .ok o => .ok (renderFormatted b o)

/-- `Format`. -/
def Format (b : Bytes) (opts : List FormatOption) : Except FErr String :=
  format b opts

/-- The `String()` method (spec §6 `toDisplayString`): format with the
default configuration, with a plain `"%d B"` fallback if that failed. -/
def toDisplayString (b : Bytes) : String :=
  match format b [] with
  | .ok str => str
  | .error _ => natToString b.Lo ++ " B"

-- The alternative unit-lookup strategies (benchmark variants file).

/-- `UnitStringToBytes` — the parsing map of the map-based variant. -/
def UnitStringToBytes : List (String × Bytes) :=
  [("b", B),
   ("kb", KB), ("mb", MB), ("gb", GB), ("tb", TB), ("pb", PB), ("eb", EB),
   ("zb", ZB), ("yb", YB), ("rb", RB), ("qb", QB),
   ("kib", KiB), ("mib", MiB), ("gib", GiB), ("tib", TiB), ("pib", PiB),
   ("eib", EiB), ("zib", ZiB), ("yib", YiB), ("rib", RiB), ("qib", QiB),
   ("byte", B), ("bytes", B),
   ("kilobyte", KB), ("kilobytes", KB), ("megabyte", MB), ("megabytes", MB),
   ("gigabyte", GB), ("gigabytes", GB), ("terabyte", TB), ("terabytes", TB),
   ("petabyte", PB), ("petabytes", PB), ("exabyte", EB), ("exabytes", EB),
   ("zettabyte", ZB), ("zettabytes", ZB), ("yottabyte", YB), ("yottabytes", YB),
   ("ronnabyte", RB), ("ronnabytes", RB), ("quettabyte", QB), ("quettabytes", QB),
   ("kibibyte", KiB), ("kibibytes", KiB), ("mebibyte", MiB), ("mebibytes", MiB),
   ("gibibyte", GiB), ("gibibytes", GiB), ("tebibyte", TiB), ("tebibytes", TiB),
   ("pebibyte", PiB), ("pebibytes", PiB), ("exbibyte", EiB), ("exbibytes", EiB),
   ("zebibyte", ZiB), ("zebibytes", ZiB), ("yobibyte", YiB), ("yobibytes", YiB),
   ("ronnibyte", RiB), ("ronnibytes", RiB), ("quettibyte", QiB), ("quettibytes", QiB)]

/-- Go map lookup by string key. -/
def assocLookup : List (String × Bytes) → String → Option Bytes
  | [], _ => none
  | (k, v) :: rest, s => if s = k then some v else assocLookup rest s

/-- `getMultiplierByUnitStringMapVersion`. -/
def getMultiplierByUnitStringMapVersion (unitStr : String) : Except PErr Bytes :=
  match assocLookup UnitStringToBytes (normalizeUnit unitStr) with
  | some multiplier => .ok multiplier
  | none => .error .unknownUnit

/-- `getMultiplierByUnitStringNestedSwitchesVersion`, which branches on
`unitStr[0]`, `unitStr[1]`, … — byte indexing that panics in Go when the
normalized string is too short; an out-of-range index is `none` here, and
`some r` is the returned result otherwise. -/
def getMultiplierByUnitStringNestedSwitchesVersion (unitStr : String) :
    Option (Except PErr Bytes) :=
  let l := (normalizeUnit unitStr).toList
  match l.get? 0 with
  | none => none
  | some c0 =>
    match c0 with
    | 'b' => some (.ok B)
    | 'k' =>
      match l.get? 1 with
      | none => none
      | some 'b' => some (.ok KB)
      | some 'i' =>
        match l.get? 2 with
        | none => none
        | some 'b' => some (.ok KiB)
        | some 'l' => some (.ok KB)
        | some _ => some (.error .unknownUnit)
      | some _ => some (.error .unknownUnit)
    | 'm' =>
      match l.get? 1 with
      | none => none
      | some 'b' => some (.ok MB)
      | some 'i' => some (.ok MiB)
      | some 'e' =>
        match l.get? 2 with
        | none => none
        | some 'b' => some (.ok MiB)
        | some 'g' => some (.ok MB)
        | some _ => some (.error .unknownUnit)
      | some _ => some (.error .unknownUnit)
    | 'g' =>
      match l.get? 1 with
      | none => none
      | some 'b' => some (.ok GB)
      | some 'i' =>
        match l.get? 2 with
        | none => none
        | some 'b' => some (.ok GiB)
        | some 'g' => some (.ok GB)
        | some _ => some (.error .unknownUnit)
      | some _ => some (.error .unknownUnit)
    | 't' =>
      match l.get? 1 with
      | none => none
      | some 'b' => some (.ok TB)
      | some 'i' => some (.ok TiB)
      | some 'e' =>
        match l.get? 2 with
        | none => none
        | some 'b' => some (.ok TiB)
        | some 'r' => some (.ok TB)
        | some _ => some (.error .unknownUnit)
      | some _ => some (.error .unknownUnit)
    | 'p' =>
      match l.get? 1 with
      | none => none
      | some 'b' => some (.ok PB)
      | some 'i' => some (.ok PiB)
      | some 'e' =>
        match l.get? 2 with
        | none => none
        | some 'b' => some (.ok PiB)
        | some 't' => some (.ok PB)
        | some _ => some (.error .unknownUnit)
      | some _ => some (.error .unknownUnit)
    | 'e' =>
      match l.get? 1 with
      | none => none
      | some 'b' => some (.ok EB)
      | some 'i' => some (.ok EiB)
      | some 'x' =>
        match l.get? 2 with
        | none => none
        | some 'b' => some (.ok EiB)
        | some 'a' => some (.ok EB)
        | some _ => some (.error .unknownUnit)
      | some _ => some (.error .unknownUnit)
    | 'z' =>
      match l.get? 1 with
      | none => none
      | some 'b' => some (.ok ZB)
      | some 'i' => some (.ok ZiB)
      | some 'e' =>
        match l.get? 2 with
        | none => none
        | some 'b' => some (.ok ZiB)
        | some 't' => some (.ok ZB)
        | some _ => some (.error .unknownUnit)
      | some _ => some (.error .unknownUnit)
    | 'y' =>
      match l.get? 1 with
      | none => none
      | some 'b' => some (.ok YB)
      | some 'i' => some (.ok YiB)
      | some 'o' =>
        match l.get? 2 with
        | none => none
        | some 'b' => some (.ok YiB)
        | some 't' => some (.ok YB)
        | some _ => some (.error .unknownUnit)
      | some _ => some (.error .unknownUnit)
    | 'r' =>
      match l.get? 1 with
      | none => none
      | some 'b' => some (.ok RB)
      | some 'i' => some (.ok RiB)
      | some 'o' =>
        match l.get? 2 with
        | none => none
        | some 'n' =>
          match l.get? 3 with
          | none => none
          | some 'n' =>
            match l.get? 4 with
            | none => none
            | some 'i' => some (.ok RiB)
            | some 'a' => some (.ok RB)
            | some _ => some (.error .unknownUnit)
          | some _ => some (.error .unknownUnit)
        | some _ => some (.error .unknownUnit)
      | some _ => some (.error .unknownUnit)
    | 'q' =>
      match l.get? 1 with
      | none => none
      | some 'b' => some (.ok QB)
      | some 'i' => some (.ok QiB)
      | some 'u' =>
        match l.get? 2 with
        | none => none
        | some 'e' =>
          match l.get? 3 with
          | none => none
          | some 't' =>
            match l.get? 4 with
            | none => none
            | some 't' =>
              match l.get? 5 with
              | none => none
              | some 'i' => some (.ok QiB)
              | some 'a' => some (.ok QB)
              | some _ => some (.error .unknownUnit)
            | some _ => some (.error .unknownUnit)
          | some _ => some (.error .unknownUnit)
        | some _ => some (.error .unknownUnit)
      | some _ => some (.error .unknownUnit)
    | _ => some (.error .unknownUnit)

/-! ### Helper lemmas -/

/-- Characters are equal iff their code points are. -/
lemma char_toNat_inj {c d : Char} (h : c.toNat = d.toNat) : c = d :=
  Char.ext (UInt32.toNat.inj h)

/-- A numeric-buffer character is never whitespace. -/
lemma isNumRune_not_space {c : Char} (h : isNumRune c = true) : goIsSpace c = false := by
  simp only [isNumRune, Bool.or_eq_true, decide_eq_true_eq, Bool.and_eq_true] at h
  simp only [goIsSpace, Bool.or_eq_false_iff, decide_eq_false_iff_not]
  omega

/-- A digit is a numeric-buffer character. -/
lemma isDigitChar_isNumRune {c : Char} (h : isDigitChar c = true) : isNumRune c = true := by
  simp only [isDigitChar, Bool.and_eq_true, decide_eq_true_eq] at h
  simp only [isNumRune, Bool.or_eq_true, decide_eq_true_eq, Bool.and_eq_true]
  omega

/-- A digit is not the decimal point. -/
lemma isDigitChar_ne_dot {c : Char} (h : isDigitChar c = true) : c ≠ '.' := by
  rintro rfl; simp [isDigitChar] at h

/-- A digit is not the minus sign. -/
lemma isDigitChar_ne_dash {c : Char} (h : isDigitChar c = true) : c ≠ '-' := by
  rintro rfl; simp [isDigitChar] at h

/-- Characterization of the scanning loop on inputs whose total number of
decimal points (including one already seen, when `fd` is set) is at most
one: spaces are skipped, numeric characters extend the numeric buffer, and
all other characters extend the unit buffer, preserving relative order. -/
lemma scanRunes_ok (l : List Char) : ∀ (fd : Bool) (nums units : List Char),
    l.count '.' + (if fd then 1 else 0) ≤ 1 →
    scanRunes l fd nums units =
      .ok (nums ++ l.filter isNumRune,
           units ++ l.filter (fun c => !goIsSpace c && !isNumRune c)) := by
  induction l with
  | nil => intro fd nums units _; simp [scanRunes]
  | cons c rest ih =>
    intro fd nums units hcount
    rw [List.count_cons] at hcount
    by_cases hsp : goIsSpace c = true
    · have hnum : isNumRune c = false := by
        cases hn : isNumRune c
        · rfl
        · rw [isNumRune_not_space hn] at hsp; cases hsp
      have hdot : c ≠ '.' := by
        rintro rfl; simp [isNumRune] at hnum
      rw [scanRunes, if_pos hsp, ih fd nums units (by simp [hdot] at hcount; omega)]
      simp [List.filter_cons, hsp, hnum]
    · rw [Bool.not_eq_true] at hsp
      by_cases hnum : isNumRune c = true
      · by_cases hdot : c = '.'
        · subst hdot
          have hfd : fd = false := by
            cases fd
            · rfl
            · exfalso; simp at hcount
          subst hfd
          rw [scanRunes, if_neg (by simp [hsp]), if_pos hnum, if_pos rfl]
          rw [ih true (nums ++ ['.']) units (by simp at hcount ⊢; omega)]
          simp [List.filter_cons, hsp, hnum]
        · rw [scanRunes, if_neg (by simp [hsp]), if_pos hnum, if_neg hdot]
          rw [ih fd (nums ++ [c]) units (by simp [hdot] at hcount; omega)]
          simp [List.filter_cons, hsp, hnum]
      · rw [Bool.not_eq_true] at hnum
        rw [scanRunes, if_neg (by simp [hsp]), if_neg (by simp [hnum])]
        have hdot : c ≠ '.' := by rintro rfl; simp [isNumRune] at hnum
        rw [ih fd nums (units ++ [c]) (by simp [hdot] at hcount; omega)]
        simp [List.filter_cons, hsp, hnum]

/-- Trimming does nothing when both edge characters are not whitespace. -/
lemma goTrimSpace_cons_concat (a b : Char) (mid : List Char)
    (ha : goIsSpace a = false) (hb : goIsSpace b = false) :
    goTrimSpace (a :: (mid ++ [b])) = a :: (mid ++ [b]) := by
  unfold goTrimSpace
  rw [List.dropWhile_cons, if_neg (by simp [ha])]
  have : (a :: (mid ++ [b])).reverse = b :: (mid.reverse ++ [a]) := by
    simp
  rw [this, List.dropWhile_cons, if_neg (by simp [hb]), ← this, List.reverse_reverse]

/-- `takeWhile`/`dropWhile` on a block of satisfying characters followed by
a non-satisfying boundary. -/
lemma takeWhile_dropWhile_append (p : Char → Bool) (l2 : List Char)
    (h2 : ∀ c, l2.head? = some c → p c = false) :
    ∀ l1, (∀ c ∈ l1, p c = true) →
      l1.takeWhile p = l1 ∧ (l1 ++ l2).takeWhile p = l1 ∧
        (l1 ++ l2).dropWhile p = l2 := by
  intro l1
  induction l1 with
  | nil =>
    intro _
    refine ⟨rfl, ?_, ?_⟩ <;> cases l2 with
    | nil => rfl
    | cons c rest => simp [List.takeWhile_cons, List.dropWhile_cons, h2 c rfl]
  | cons a l1' ih =>
    intro h1
    have ha := h1 a (by simp)
    have ih' := ih (fun c hc => h1 c (by simp [hc]))
    refine ⟨?_, ?_, ?_⟩
    · rw [List.takeWhile_cons, if_pos ha, ih'.1]
    · rw [List.cons_append, List.takeWhile_cons, if_pos ha, ih'.2.1]
    · rw [List.cons_append, List.dropWhile_cons, if_pos ha, ih'.2.2]

/-- `digitsVal` with an arbitrary accumulator. -/
lemma digitsVal_foldl (l : List Char) : ∀ i : Nat,
    l.foldl (fun acc c => acc * 10 + (c.toNat - 48)) i =
      i * 10 ^ l.length + digitsVal l := by
  induction l with
  | nil => intro i; simp [digitsVal]
  | cons c rest ih =>
    intro i
    show rest.foldl _ (i * 10 + (c.toNat - 48)) = _
    rw [ih]
    have : digitsVal (c :: rest) = (c.toNat - 48) * 10 ^ rest.length + digitsVal rest := by
      show rest.foldl _ (0 * 10 + (c.toNat - 48)) = _
      rw [ih]; ring_nf
    rw [this]
    simp [List.length_cons, pow_succ]
    ring

/-- `digitsVal` distributes over append positionally. -/
lemma digitsVal_append (a b : List Char) :
    digitsVal (a ++ b) = digitsVal a * 10 ^ b.length + digitsVal b := by
  unfold digitsVal
  rw [List.foldl_append, digitsVal_foldl]
  rfl

/-- The digit character of `d < 10` has code point `48 + d`. -/
lemma digitChar_toNat {d : Nat} (h : d < 10) : (digitChar d).toNat = 48 + d := by
  interval_cases d <;> rfl

/-- The digit character of `d < 10` is a digit. -/
lemma digitChar_isDigit {d : Nat} (h : d < 10) : isDigitChar (digitChar d) = true := by
  interval_cases d <;> rfl

/-- With enough fuel, the decimal rendering is nonempty, consists of
digits, and evaluates back to the number. -/
lemma natToDigitsAux_spec : ∀ (fuel n : Nat), n < fuel →
    natToDigitsAux fuel n ≠ [] ∧
    (∀ c ∈ natToDigitsAux fuel n, isDigitChar c = true) ∧
    digitsVal (natToDigitsAux fuel n) = n := by
  intro fuel
  induction fuel with
  | zero => intro n h; omega
  | succ fuel ih =>
    intro n h
    by_cases h10 : n < 10
    · rw [natToDigitsAux, if_pos h10]
      refine ⟨by simp, ?_, ?_⟩
      · intro c hc
        rw [List.mem_singleton] at hc
        subst hc
        exact digitChar_isDigit h10
      · show 0 * 10 + ((digitChar n).toNat - 48) = n
        rw [digitChar_toNat h10]; omega
    · rw [natToDigitsAux, if_neg h10]
      have hrec := ih (n / 10) (by omega)
      refine ⟨by simp [hrec.1], ?_, ?_⟩
      · intro c hc
        rw [List.mem_append, List.mem_singleton] at hc
        rcases hc with hc | hc
        · exact hrec.2.1 c hc
        · subst hc; exact digitChar_isDigit (by omega)
      · rw [digitsVal_append, hrec.2.2]
        have : digitsVal [digitChar (n % 10)] = n % 10 := by
          show 0 * 10 + ((digitChar (n % 10)).toNat - 48) = n % 10
          rw [digitChar_toNat (by omega)]; omega
        rw [this]
        simp only [List.length_singleton, pow_one]
        omega

/-- `natToDigits` is nonempty, all digits, and evaluates to its input. -/
lemma natToDigits_spec (n : Nat) :
    natToDigits n ≠ [] ∧ (∀ c ∈ natToDigits n, isDigitChar c = true) ∧
      digitsVal (natToDigits n) = n :=
  natToDigitsAux_spec (n + 1) n (by omega)

/-- Inversion of a successful mantissa parse: the buffer is nonempty,
consists of digits and at most one point. -/
lemma parseMantissa_inv {cs : List Char} {N k : Nat}
    (h : parseMantissa cs = some (N, k)) :
    cs ≠ [] ∧ (∀ c ∈ cs, isDigitChar c = true ∨ c = '.') ∧ cs.count '.' ≤ 1 := by
  have hsplit := List.takeWhile_append_dropWhile (p := isDigitChar) (l := cs)
  have htake : ∀ c ∈ cs.takeWhile isDigitChar, isDigitChar c = true :=
    fun c hc => List.mem_takeWhile_imp hc
  simp only [parseMantissa] at h
  split at h
  · next heq =>
    split at h
    · cases h
    · next hne =>
      rw [heq, List.append_nil] at hsplit
      refine ⟨by rw [← hsplit]; exact hne, ?_, ?_⟩
      · intro c hc; left; exact htake c (by rw [hsplit]; exact hc)
      · rw [← hsplit]
        have h0 : (cs.takeWhile isDigitChar).count '.' = 0 :=
          List.count_eq_zero.mpr (fun hc => isDigitChar_ne_dot (htake _ hc) rfl)
        omega
  · next frac heq =>
    split at h
    · next hfrac =>
      split at h
      · cases h
      · next hne =>
        rw [List.all_eq_true] at hfrac
        constructor
        · rw [← hsplit, heq]
          intro hcontra
          exact absurd (List.append_eq_nil.mp hcontra).2 (by simp)
        constructor
        · intro c hc
          rw [← hsplit, heq, List.mem_append, List.mem_cons] at hc
          rcases hc with hc | hc | hc
          · left; exact htake c hc
          · right; exact hc
          · left; simpa using hfrac c hc
        · rw [← hsplit, heq, List.count_append, List.count_cons]
          have h1 : (cs.takeWhile isDigitChar).count '.' = 0 :=
            List.count_eq_zero.mpr (fun hc => isDigitChar_ne_dot (htake _ hc) rfl)
          have h2 : frac.count '.' = 0 :=
            List.count_eq_zero.mpr
              (fun hc => isDigitChar_ne_dot (by simpa using hfrac _ hc) rfl)
          simp [h1, h2]
    · cases h
  · cases h

/-- On a buffer with no leading minus sign, `ratSetString` is a
non-negative mantissa parse. -/
lemma ratSetString_nonneg {cs : List Char} {N k : Nat}
    (hhead : ∀ c, cs.head? = some c → c ≠ '-')
    (h : parseMantissa cs = some (N, k)) :
    ratSetString cs = some (false, N, k) := by
  cases cs with
  | nil => simp [parseMantissa, digitsVal] at h
  | cons c rest =>
    have hc : c ≠ '-' := hhead c rfl
    unfold ratSetString
    split
    · next heq =>
      injection heq with h1 _
      exact absurd h1 hc
    · rw [h]
      rfl

/-- The `Parse` pipeline on an input made of a numeric literal, one space,
and a unit string: the unit is resolved, the literal is parsed exactly, and
the truncated product is returned unless it exceeds 128 bits. -/
lemma Parse_decomposed (d U : String) (N k : Nat) (m : Bytes)
    (hd : parseMantissa d.toList = some (N, k))
    (hU : ∀ c ∈ U.toList, goIsSpace c = false ∧ isNumRune c = false)
    (hm : getMultiplierForUnitString U = .ok m) :
    Parse (d ++ " " ++ U) =
      if 2 ^ 128 ≤ N * m.toNat / 10 ^ k then .error .overflow
      else .ok (Uint128.ofNat (N * m.toNat / 10 ^ k)) := by
  obtain ⟨hne, hchars, hdots⟩ := parseMantissa_inv hd
  have hnumd : ∀ c ∈ d.toList, isNumRune c = true := by
    intro c hc
    rcases hchars c hc with h | h
    · exact isDigitChar_isNumRune h
    · subst h; rfl
  have hUne : U.toList ≠ [] := by
    intro hnil
    have hU0 : U = "" := String.ext hnil
    rw [hU0] at hm
    have : getMultiplierForUnitString "" = .error .unknownUnit := by decide
    rw [this] at hm
    cases hm
  obtain ⟨a, dtl, had⟩ := List.exists_cons_of_ne_nil hne
  rcases List.eq_nil_or_concat U.toList with hcon | ⟨utl, b, hcon⟩
  · exact absurd hcon hUne
  have hlist : (d ++ " " ++ U).toList = d.toList ++ ' ' :: U.toList := by
    show (d ++ " " ++ U).data = d.data ++ ' ' :: U.data
    rw [String.data_append, String.data_append]
    simp [String.data]
  have hUdot : ∀ c ∈ U.toList, c ≠ '.' := by
    intro c hc hdot
    subst hdot
    exact absurd (hU '.' hc).2 (by decide)
  have htrim : goTrimSpace ((d ++ " " ++ U).toList) = d.toList ++ ' ' :: U.toList := by
    rw [hlist, had, hcon]
    have hre : a :: dtl ++ ' ' :: (utl.concat b) =
        a :: ((dtl ++ ' ' :: utl) ++ [b]) := by simp
    rw [hre, goTrimSpace_cons_concat]
    · exact isNumRune_not_space (hnumd a (by rw [had]; simp))
    · exact (hU b (by rw [hcon]; simp)).1
  have hcount : (d.toList ++ ' ' :: U.toList).count '.' + (if false then 1 else 0) ≤ 1 := by
    have hU0 : U.toList.count '.' = 0 :=
      List.count_eq_zero.mpr (fun hc => hUdot _ hc rfl)
    have hs : (' ' :: U.toList).count '.' = 0 := by
      rw [List.count_cons, hU0]
      have hb : (' ' == '.') = false := by decide
      rw [hb]
      simp
    rw [List.count_append, hs]
    simp only [Bool.false_eq_true, if_false]
    omega
  have hfilter1 : (d.toList ++ ' ' :: U.toList).filter isNumRune = d.toList := by
    rw [List.filter_append, List.filter_cons]
    rw [List.filter_eq_self.mpr hnumd]
    have : isNumRune ' ' = false := rfl
    rw [this]
    simp only [Bool.false_eq_true, if_false]
    rw [List.filter_eq_nil_iff.mpr (fun c hc => by simp [(hU c hc).2]), List.append_nil]
  have hfilter2 : (d.toList ++ ' ' :: U.toList).filter
      (fun c => !goIsSpace c && !isNumRune c) = U.toList := by
    rw [List.filter_append, List.filter_cons]
    rw [List.filter_eq_nil_iff.mpr (fun c hc => by simp [hnumd c hc])]
    have : (!goIsSpace ' ' && !isNumRune ' ') = false := rfl
    rw [this]
    simp only [Bool.false_eq_true, if_false, List.nil_append]
    exact List.filter_eq_self.mpr (fun c hc => by simp [(hU c hc).1, (hU c hc).2])
  have hscan : getNumAndUnitRunes (d.toList ++ ' ' :: U.toList) =
      .ok (d.toList, U.toList) := by
    unfold getNumAndUnitRunes
    rw [scanRunes_ok _ false [] [] hcount, hfilter1, hfilter2]
    simp
  have hrat : ratSetString d.toList = some (false, N, k) := by
    refine ratSetString_nonneg ?_ hd
    intro c hc
    rw [had] at hc
    have hca : a = c := by simpa using hc
    subst hca
    have hmem : a ∈ d.toList := by rw [had]; simp
    rcases hchars a hmem with h | h
    · exact isDigitChar_ne_dash h
    · rw [h]; decide
  have hmkU : String.mk U.toList = U := rfl
  unfold Parse
  rw [htrim]
  rw [if_neg (by rw [had]; simp)]
  rw [hscan]
  simp only [hmkU, hm, hrat, hne, ne_eq, not_false_iff, if_false,
    Bool.false_eq_true, false_and, if_true]

/-! ### Claim theorems -/

/-- C1: for every input made of a valid non-negative decimal literal
(value `N / 10^k` under the embedded `big.Rat` grammar) and a recognized
unit of magnitude `m`, whenever the truncated product fits in 128 bits
`Parse` returns exactly `⌊(N / 10^k) · m⌋` — the product truncated toward
zero, discarding fractional bytes; in particular `Parse "10 MB"` is
10,000,000 bytes, `Parse "1.5 KB"` is 1500 bytes, and `Parse "0.00001 KB"`
is 0 bytes. -/
theorem parse_truncated_product :
    (∀ (d U : String) (N k : Nat) (m : Bytes),
      parseMantissa d.toList = some (N, k) →
      (∀ c ∈ U.toList, goIsSpace c = false ∧ isNumRune c = false) →
      getMultiplierForUnitString U = .ok m →
      N * m.toNat / 10 ^ k < 2 ^ 128 →
      Parse (d ++ " " ++ U) = .ok (Uint128.ofNat (N * m.toNat / 10 ^ k)) ∧
        N * m.toNat / 10 ^ k = ⌊(N : ℚ) / 10 ^ k * (m.toNat : ℚ)⌋₊) ∧
    Parse "10 MB" = .ok ⟨10000000, 0⟩ ∧
    Parse "1.5 KB" = .ok ⟨1500, 0⟩ ∧
    Parse "0.00001 KB" = .ok ⟨0, 0⟩ := by
  refine ⟨?_, by decide, by decide, by decide⟩
  intro d U N k m hd hU hm hfit
  refine ⟨?_, ?_⟩
  · rw [Parse_decomposed d U N k m hd hU hm, if_neg (by omega)]
  · have hcast : (N : ℚ) / 10 ^ k * (m.toNat : ℚ) =
        ((N * m.toNat : ℕ) : ℚ) / ((10 ^ k : ℕ) : ℚ) := by
      push_cast; ring
    rw [hcast, Nat.floor_div_nat, Nat.floor_natCast]

/-- C1 witness: the general statement applied at "1.5 KB". -/
theorem parse_truncated_product_witness :
    Parse ("1.5" ++ " " ++ "KB") = .ok (Uint128.ofNat (15 * (KB).toNat / 10 ^ 1)) ∧
      15 * (KB).toNat / 10 ^ 1 = ⌊(15 : ℚ) / 10 ^ 1 * ((KB).toNat : ℚ)⌋₊ :=
  parse_truncated_product.1 "1.5" "KB" 15 1 KB (by decide) (by decide)
    (by decide) (by decide)

/-- C3 (amended): for every decomposed input that passes the earlier
stages, `Parse` fails with `Overflow` exactly when the truncated integer
product needs more than 128 bits; `Parse "1000000000 QB"` (10^39 bytes)
fails with `Overflow`, while `Parse "1000 QB"` (10^33 bytes, 110 bits)
succeeds. -/
theorem parse_overflow_iff :
    (∀ (d U : String) (N k : Nat) (m : Bytes),
      parseMantissa d.toList = some (N, k) →
      (∀ c ∈ U.toList, goIsSpace c = false ∧ isNumRune c = false) →
      getMultiplierForUnitString U = .ok m →
      (Parse (d ++ " " ++ U) = .error .overflow ↔
        2 ^ 128 ≤ N * m.toNat / 10 ^ k)) ∧
    Parse "1000000000 QB" = .error .overflow := by
  refine ⟨?_, by decide⟩
  intro d U N k m hd hU hm
  rw [Parse_decomposed d U N k m hd hU hm]
  by_cases hov : 2 ^ 128 ≤ N * m.toNat / 10 ^ k
  · simp [hov]
  · simp [hov]

/-- C3 witness: the iff applied at "1000000000 QB", in the overflowing
direction. -/
theorem parse_overflow_iff_witness :
    Parse ("1000000000" ++ " " ++ "QB") = .error .overflow ↔
      2 ^ 128 ≤ 1000000000 * (QB).toNat / 10 ^ 0 :=
  parse_overflow_iff.1 "1000000000" "QB" 1000000000 0 QB (by decide)
    (by decide) (by decide)

/-- C3 counterexample: the claim "Parse "1000 QB" fails with Overflow" is
false — 1000 QB is 10^33 bytes, which needs only 110 bits, and `Parse`
returns it. -/
theorem parse_1000QB_succeeds :
    Parse "1000 QB" = .ok (Uint128.ofNat (10 ^ 33)) := by decide

/-- C5: the code resolves the unit buffer before checking the numeric
buffer for emptiness, so `Parse "abc"` (empty numeric buffer, unrecognized
unit buffer) fails with the unknown-unit error, not the malformed-number
one; only an input with a recognized unit and empty numeric buffer, like
"KB", reaches the empty-numeric-part error. -/
theorem parse_abc_unknown_unit :
    Parse "abc" = .error .unknownUnit ∧
      Parse "KB" = .error .emptyNumericPart := ⟨by decide, by decide⟩

/-- C9: the scanner classifies every non-whitespace character by kind and
not by position — digits, `-` and the decimal point go to the numeric
buffer and everything else to the unit buffer, in input order — so
interleaved inputs like "1M2B" and unit-first inputs like "MB 12" parse to
the same value as "12 MB". -/
theorem parse_char_classification :
    (∀ l : List Char, l.count '.' ≤ 1 →
      getNumAndUnitRunes l =
        .ok (l.filter isNumRune, l.filter (fun c => !goIsSpace c && !isNumRune c))) ∧
    Parse "1M2B" = Parse "12 MB" ∧
    Parse "MB 12" = Parse "12 MB" ∧
    Parse "12 MB" = .ok ⟨12000000, 0⟩ := by
  refine ⟨?_, by decide, by decide, by decide⟩
  intro l hl
  unfold getNumAndUnitRunes
  rw [scanRunes_ok l false [] [] (by simpa using hl)]
  simp

/-- C9 witness: the classification applied to the character list of
"1M2B". -/
theorem parse_char_classification_witness :
    getNumAndUnitRunes ['1', 'M', '2', 'B'] =
      .ok (['1', 'M', '2', 'B'].filter isNumRune,
        ['1', 'M', '2', 'B'].filter (fun c => !goIsSpace c && !isNumRune c)) :=
  parse_char_classification.1 ['1', 'M', '2', 'B'] (by decide)

/-- C7: formatting with the default configuration never fails, so the
`String()` method always returns exactly the `Format()` result and its
last-resort fallback rendering is unreachable. -/
theorem toDisplayString_never_fails :
    ∀ b : Bytes, Format b [] = .ok (toDisplayString b) := fun _ => rfl

/-- The word-pair comparison agrees with comparison of logical values when
both low words are in range. -/
lemma cmp_ne_lt_iff {a u : Uint128} (ha : a.Lo < 2 ^ 64) (hu : u.Lo < 2 ^ 64) :
    (Uint128.Cmp a u ≠ .lt) ↔ u.toNat ≤ a.toNat := by
  unfold Uint128.Cmp Uint128.toNat
  rcases Nat.lt_trichotomy a.Hi u.Hi with h | h | h
  · rw [show compare a.Hi u.Hi = .lt from Nat.compare_eq_lt.mpr h]
    simp only [ne_eq, not_true_eq_false, false_iff, not_le]
    have : a.Hi + 1 ≤ u.Hi := h
    nlinarith
  · rw [show compare a.Hi u.Hi = .eq from Nat.compare_eq_eq.mpr h]
    simp only
    rcases Nat.lt_trichotomy a.Lo u.Lo with h2 | h2 | h2
    · rw [show compare a.Lo u.Lo = .lt from Nat.compare_eq_lt.mpr h2]
      simp only [ne_eq, not_true_eq_false, false_iff, not_le]
      omega
    · rw [show compare a.Lo u.Lo = .eq from Nat.compare_eq_eq.mpr h2]
      simp only [ne_eq, reduceCtorEq, not_false_iff, true_iff]
      omega
    · rw [show compare a.Lo u.Lo = .gt from Nat.compare_eq_gt.mpr h2]
      simp only [ne_eq, reduceCtorEq, not_false_iff, true_iff]
      omega
  · rw [show compare a.Hi u.Hi = .gt from Nat.compare_eq_gt.mpr h]
    simp only [ne_eq, reduceCtorEq, not_false_iff, true_iff]
    have : u.Hi + 1 ≤ a.Hi := h
    nlinarith

/-- The selection loop on a strictly descending ladder returns the zero
value when every unit exceeds the value, and otherwise the largest ladder
unit not exceeding it. -/
lemma findUnit_spec (b : Uint128) (hb : b.Lo < 2 ^ 64) :
    ∀ slice : List Uint128,
      (∀ u ∈ slice, u.Lo < 2 ^ 64) →
      slice.Pairwise (fun x y => y.toNat < x.toNat) →
      (findUnit slice b = ⟨0, 0⟩ ∧ ∀ u ∈ slice, b.toNat < u.toNat) ∨
      (findUnit slice b ∈ slice ∧ (findUnit slice b).toNat ≤ b.toNat ∧
        ∀ u ∈ slice, u.toNat ≤ b.toNat → u.toNat ≤ (findUnit slice b).toNat) := by
  intro slice
  induction slice with
  | nil => intro _ _; left; exact ⟨rfl, by simp⟩
  | cons u rest ih =>
    intro hlo hpw
    rw [List.pairwise_cons] at hpw
    have hu := hlo u (by simp)
    by_cases hcmp : Uint128.Cmp b u ≠ .lt
    · have hle : u.toNat ≤ b.toNat := (cmp_ne_lt_iff hb hu).mp hcmp
      right
      rw [findUnit, if_pos hcmp]
      refine ⟨by simp, hle, ?_⟩
      intro v hv _
      rcases List.mem_cons.mp hv with rfl | hv
      · exact le_refl _
      · exact le_of_lt (hpw.1 v hv)
    · have hgt : b.toNat < u.toNat := by
        have := (cmp_ne_lt_iff hb hu).not.mp hcmp
        omega
      rw [findUnit, if_neg hcmp]
      rcases ih (fun v hv => hlo v (by simp [hv])) hpw.2 with ⟨hz, hall⟩ | ⟨hmem, hle, hmax⟩
      · left
        refine ⟨hz, ?_⟩
        intro v hv
        rcases List.mem_cons.mp hv with rfl | hv
        · exact hgt
        · exact hall v hv
      · right
        refine ⟨by simp [hmem], hle, ?_⟩
        intro v hv hvb
        rcases List.mem_cons.mp hv with rfl | hv
        · omega
        · exact hmax v hv hvb

/-- C4: the automatic unit selection in `format` picks an element of the
configured ladder that is maximal among units not exceeding the value
(whenever the value is nonzero the pick does not exceed it), and picks the
byte unit when the value is below every non-byte unit; concretely, 999
bytes format as "999.00 B" (not KB) and the zero value as "0.00 B". -/
theorem format_auto_unit_selection :
    (∀ (b : Bytes) (slice : List Bytes), b.Lo < 2 ^ 64 →
      slice = decimalUnitSlice ∨ slice = binaryUnitSlice →
      selectBestUnit slice b ∈ slice ∧
        (∀ u ∈ slice, u.toNat ≤ b.toNat → u.toNat ≤ (selectBestUnit slice b).toNat) ∧
        (0 < b.toNat → (selectBestUnit slice b).toNat ≤ b.toNat) ∧
        ((∀ u ∈ slice, u ≠ B → b.toNat < u.toNat) → selectBestUnit slice b = B)) ∧
    format ⟨999, 0⟩ [] = .ok "999.00 B" ∧
    format ⟨0, 0⟩ [] = .ok "0.00 B" := by
  refine ⟨?_, by decide, by decide⟩
  intro b slice hb hslice
  have hlo : ∀ u ∈ slice, u.Lo < 2 ^ 64 := by
    rcases hslice with rfl | rfl <;> decide
  have hpw : slice.Pairwise (fun x y => Uint128.toNat y < Uint128.toNat x) := by
    rcases hslice with rfl | rfl <;> decide
  have hnz : ∀ u ∈ slice, ¬(u.Lo = 0 ∧ u.Hi = 0) := by
    rcases hslice with rfl | rfl <;> decide
  have hBmem : B ∈ slice := by
    rcases hslice with rfl | rfl <;> decide
  rcases findUnit_spec b hb slice hlo hpw with ⟨hz, hall⟩ | ⟨hmem, hle, hmax⟩
  · have hsel : selectBestUnit slice b = B := by
      unfold selectBestUnit
      rw [hz]
      simp
    rw [hsel]
    refine ⟨hBmem, ?_, ?_, fun _ => rfl⟩
    · intro u hu hub
      exact absurd hub (by have := hall u hu; omega)
    · intro hpos
      have := hall B hBmem
      show Uint128.toNat B ≤ b.toNat
      have hB1 : Uint128.toNat B = 1 := rfl
      omega
  · have hsel : selectBestUnit slice b = findUnit slice b := by
      unfold selectBestUnit
      rw [if_neg (hnz _ hmem)]
    rw [hsel]
    refine ⟨hmem, hmax, fun _ => hle, ?_⟩
    intro hnb
    by_contra hne
    exact absurd hle (by have := hnb _ hmem hne; omega)

/-- C4 witness: the selection facts applied to 999 bytes on the decimal
ladder. -/
theorem format_auto_unit_selection_witness :
    selectBestUnit decimalUnitSlice ⟨999, 0⟩ ∈ decimalUnitSlice ∧
      (∀ u ∈ decimalUnitSlice, u.toNat ≤ (Uint128.mk 999 0).toNat →
        u.toNat ≤ (selectBestUnit decimalUnitSlice ⟨999, 0⟩).toNat) ∧
      (0 < (Uint128.mk 999 0).toNat →
        (selectBestUnit decimalUnitSlice ⟨999, 0⟩).toNat ≤ (Uint128.mk 999 0).toNat) ∧
      ((∀ u ∈ decimalUnitSlice, u ≠ B → (Uint128.mk 999 0).toNat < u.toNat) →
        selectBestUnit decimalUnitSlice ⟨999, 0⟩ = B) :=
  format_auto_unit_selection.1 ⟨999, 0⟩ decimalUnitSlice (by decide) (Or.inl rfl)

/-- The selected unit is a ladder element or the byte fallback. -/
lemma selectBestUnit_mem_or_B (slice : List Bytes) (b : Bytes) :
    selectBestUnit slice b ∈ slice ∨ selectBestUnit slice b = B := by
  have hfind : findUnit slice b = ⟨0, 0⟩ ∨ findUnit slice b ∈ slice := by
    induction slice with
    | nil => left; rfl
    | cons u rest ih =>
      rw [findUnit]
      by_cases hc : Uint128.Cmp b u ≠ .lt
      · rw [if_pos hc]; right; simp
      · rw [if_neg hc]
        rcases ih with h | h
        · left; exact h
        · right; simp [h]
  unfold selectBestUnit
  by_cases hz : (findUnit slice b).Lo = 0 ∧ (findUnit slice b).Hi = 0
  · rw [if_pos hz]; right; rfl
  · rw [if_neg hz]
    rcases hfind with h | h
    · exact absurd (by rw [h]; exact ⟨rfl, rfl⟩) hz
    · left; exact h

/-- The automatically selected decimal unit has a nonzero magnitude. -/
lemma selectBestUnit_decimal_pos (b : Bytes) :
    0 < (selectBestUnit decimalUnitSlice b).toNat := by
  rcases selectBestUnit_mem_or_B decimalUnitSlice b with h | h
  · have : ∀ u ∈ decimalUnitSlice, 0 < Uint128.toNat u := by decide
    exact this _ h
  · rw [h]; decide

/-- `rheDiv` never rounds below the floor. -/
lemma rheDiv_ge (num den : Nat) : num / den ≤ rheDiv num den := by
  unfold rheDiv
  split
  · exact le_refl _
  · split
    · omega
    · split <;> omega


/-- `bitlenAux` of zero is zero. -/
lemma bitlenAux_zero : ∀ fuel, bitlenAux fuel 0 = 0 := by
  intro fuel
  cases fuel <;> rfl

/-- With enough fuel, the bit length of a positive number brackets it. -/
lemma bitlenAux_spec : ∀ (fuel n : Nat), n < fuel → 0 < n →
    2 ^ (bitlenAux fuel n - 1) ≤ n ∧ n < 2 ^ bitlenAux fuel n := by
  intro fuel
  induction fuel with
  | zero => intro n h _; omega
  | succ fuel ih =>
    intro n h hn
    rw [bitlenAux, if_neg (by omega)]
    by_cases h2 : n / 2 = 0
    · have hn1 : n = 1 := by omega
      subst hn1
      rw [show (1 : Nat) / 2 = 0 from rfl, bitlenAux_zero]
      norm_num
    · have hrec := ih (n / 2) (by omega) (by omega)
      set k := bitlenAux fuel (n / 2) with hk
      have hk1 : 1 ≤ k := by
        by_contra hc
        have : k = 0 := by omega
        rw [this] at hrec
        simp at hrec
        omega
      have e1 : 2 ^ k = 2 * 2 ^ (k - 1) := by
        conv_lhs => rw [show k = (k - 1) + 1 from by omega]
        rw [pow_succ]
        ring
      have e2 : 2 ^ (k + 1) = 2 * 2 ^ k := by
        rw [pow_succ]
        ring
      have hs : (k + 1) - 1 = k := by omega
      rw [hs]
      omega

/-- The bit length of a positive number brackets it. -/
lemma bitlen_spec {n : Nat} (hn : 0 < n) :
    2 ^ (bitlen n - 1) ≤ n ∧ n < 2 ^ bitlen n :=
  bitlenAux_spec (n + 1) n (by omega) hn

/-- The bit length of a positive number is positive. -/
lemma bitlen_pos {n : Nat} (hn : 0 < n) : 0 < bitlen n := by
  rcases bitlenAux_spec (n + 1) n (by omega) hn with ⟨_, hhi⟩
  by_contra hc
  have h0 : bitlen n = 0 := by omega
  unfold bitlen at h0
  rw [h0] at hhi
  simp at hhi
  omega

/-- For a positive integer the selected exponent is its bit length. -/
lemma ratExp_int {x : Nat} (hx : 0 < x) : ratExp x 1 = (bitlen x : Int) := by
  obtain ⟨hlo, _⟩ := bitlen_spec hx
  have hb1 := bitlen_pos hx
  unfold ratExp
  rw [show bitlen 1 = 1 from rfl, Nat.cast_one]
  have hdt : ((bitlen x : Int) - 1).toNat = bitlen x - 1 := by omega
  have hndt : (-((bitlen x : Int) - 1)).toNat = 0 := by omega
  rw [hdt, hndt]
  rw [if_pos (by simpa using hlo)]
  omega

/-- The exponent of `m / m` is one. -/
lemma ratExp_self (m : Nat) : ratExp m m = 1 := by
  unfold ratExp
  rw [sub_self]
  rw [show ((0 : Int)).toNat = 0 from rfl, show ((-(0 : Int))).toNat = 0 from rfl]
  rw [if_pos (le_refl _)]
  norm_num

/-- The 53-bit rounding of a positive integer has a positive mantissa. -/
lemma floatOfInt_mantissa_pos {x : Nat} (hx : 0 < x) : 0 < (floatOfInt x).1 := by
  obtain ⟨hlo, hhi⟩ := bitlen_spec hx
  unfold floatOfInt roundRat53
  rw [if_neg (by omega), ratExp_int hx]
  split
  · norm_num
  · rcases le_or_lt ((bitlen x : Int) - 53) 0 with hle | hlt
    · have h0 : ((bitlen x : Int) - 53).toNat = 0 := by omega
      rw [h0]
      refine Nat.lt_of_lt_of_le ?_ (rheDiv_ge _ _)
      simp only [pow_zero, mul_one, one_mul, Nat.div_one]
      positivity
    · have h2 : (-((bitlen x : Int) - 53)).toNat = 0 := by omega
      have h3 : ((bitlen x : Int) - 53).toNat = bitlen x - 53 := by omega
      rw [h2, h3]
      refine Nat.lt_of_lt_of_le ?_ (rheDiv_ge _ _)
      simp only [pow_zero, mul_one, one_mul]
      have hden : 2 ^ (bitlen x - 53) ≤ x :=
        le_trans (Nat.pow_le_pow_right (by norm_num) (by omega)) hlo
      exact Nat.lt_of_lt_of_le (by norm_num)
        ((Nat.one_le_div_iff (by positivity)).mpr hden)

/-- The float quotient of a positive float by itself is exactly one. -/
lemma floatQuo_self_one {a : Nat × Int} (ha : 0 < a.1) :
    floatEqOne (floatQuo a a) = true := by
  obtain ⟨m, e⟩ := a
  simp only at ha
  have hr : roundRat53 m m = (2 ^ 52, -52) := by
    have hf : rheDiv (m * 2 ^ (-(ratExp m m - 53)).toNat)
        (m * 2 ^ (ratExp m m - 53).toNat) = 2 ^ 52 := by
      rw [ratExp_self]
      rw [show ((-(((1 : Int)) - 53))).toNat = 52 from rfl,
        show ((((1 : Int)) - 53)).toNat = 0 from rfl]
      unfold rheDiv
      have hd : m * 2 ^ 52 / (m * 2 ^ 0) = 2 ^ 52 := by
        simp only [pow_zero, mul_one]
        rw [mul_comm]
        exact Nat.mul_div_cancel _ (by omega)
      have hm0 : m * 2 ^ 52 % (m * 2 ^ 0) = 0 := by
        simp only [pow_zero, mul_one]
        exact Nat.mul_mod_right _ _
      rw [hd, hm0]
      rw [if_pos (by simp only [pow_zero, mul_one]; omega)]
    unfold roundRat53
    rw [if_neg (by omega), hf]
    rw [if_neg (by norm_num), ratExp_self]
    norm_num
  unfold floatQuo
  rw [hr]
  simp only [ne_eq, sub_self, add_zero]
  rw [if_neg (by norm_num)]
  decide

set_option maxRecDepth 8000 in
/-- C6 counterexample: at 10^30 + 1 bytes the code auto-selects QB; both
operands of the display division round to the same 53-bit float, the
quotient is exactly 1, and the singular "1.00 Quettabyte" is rendered even
though the value does not equal the selected unit's magnitude. -/
theorem format_long_pluralization_counterexample :
    format (Uint128.ofNat (10 ^ 30 + 1)) [WithLongUnits true] =
      .ok "1.00 Quettabyte" ∧
    selectBestUnit decimalUnitSlice (Uint128.ofNat (10 ^ 30 + 1)) = QB ∧
    (Uint128.ofNat (10 ^ 30 + 1)).toNat ≠ (QB).toNat :=
  ⟨by decide, by decide, by decide⟩

/-- C6 (amended): with long unit names, the rendered unit name is the
singular long form exactly when the computed display quotient — the 53-bit
`big.Float` quotient the formatter is about to display — equals 1, and the
long form with "s" appended otherwise; the quotient is 1 in particular
whenever the value equals the selected magnitude (but also for some values
that merely round to it, since operands above 2^53 lose their low bits).
One kilobyte renders "1.00 Kilobyte" and two bytes render "2.00 Bytes". -/
theorem format_long_pluralization :
    (∀ b : Bytes, ∃ base : String,
      format b [WithLongUnits true] =
        .ok (sprintfValUnit DefaultFormatStr
          (floatQuo (floatOfInt b.toNat)
            (floatOfInt (selectBestUnit decimalUnitSlice b).toNat))
          (if floatEqOne (floatQuo (floatOfInt b.toNat)
              (floatOfInt (selectBestUnit decimalUnitSlice b).toNat)) = true
           then base else base ++ "s")) ∧
      floatEqOne (floatQuo
        (floatOfInt (selectBestUnit decimalUnitSlice b).toNat)
        (floatOfInt (selectBestUnit decimalUnitSlice b).toNat)) = true) ∧
    format KB [WithLongUnits true] = .ok "1.00 Kilobyte" ∧
    format ⟨2, 0⟩ [WithLongUnits true] = .ok "2.00 Bytes" := by
  refine ⟨?_, by decide, by decide⟩
  intro b
  set u := selectBestUnit decimalUnitSlice b with hu
  have hpos := selectBestUnit_decimal_pos b
  rw [← hu] at hpos
  refine ⟨(match lookupName LongDecimal u with | some n => n | none => "Byte"),
    ?_, floatQuo_self_one (floatOfInt_mantissa_pos hpos)⟩
  have h1 : format b [WithLongUnits true] =
      .ok (renderFormatted b ⟨DefaultFormatStr, none, true, true⟩) := rfl
  rw [h1]
  unfold renderFormatted
  simp only [if_true, ← hu]
  by_cases hq : floatEqOne (floatQuo (floatOfInt b.toNat) (floatOfInt u.toNat)) = true
  · rw [hq]
    simp only [Bool.not_true, Bool.and_false, Bool.false_eq_true, if_false, if_true]
  · rw [Bool.not_eq_true] at hq
    rw [hq]
    simp only [Bool.not_false, Bool.and_true, if_true, Bool.false_eq_true, if_false]

/-- Narrowing a value below `2^128` and reading it back is the identity. -/
lemma toNat_ofNat {x : Nat} (h : x < 2 ^ 128) : (Uint128.ofNat x).toNat = x := by
  unfold Uint128.ofNat Uint128.toNat
  simp only
  omega

/-- `renderFormatted` under a forced unit with decimal family and short
names: the quotient is taken against the forced unit, and the name comes
from the decimal short-name table with "B" as the fallback. -/
lemma renderFormatted_forced_short (b U : Bytes) :
    renderFormatted b ⟨DefaultFormatStr, some U, false, true⟩ =
      sprintfValUnit DefaultFormatStr
        (floatQuo (floatOfInt b.toNat) (floatOfInt U.toNat))
        (match lookupName ShortDecimal U with | some nm => nm | none => "B") := by
  unfold renderFormatted
  simp

set_option maxRecDepth 8000 in
/-- C10: options apply left to right with later ones overwriting earlier
ones — `WithDecimalUnits true` after `WithForcedUnit U` (binary `U`) keeps
`U` for the display quotient but switches the name table to the decimal
family, where `U` is absent, so the unit name silently falls back to "B"
(or "Byte"/"Bytes" with long names) with no error. -/
theorem format_forced_unit_family_override :
    (∀ (b U : Bytes),
      U ∈ [KiB, MiB, GiB, TiB, PiB, EiB, ZiB, YiB, RiB, QiB] →
      format b [WithForcedUnit U, WithDecimalUnits true] =
        .ok (sprintfValUnit DefaultFormatStr
          (floatQuo (floatOfInt b.toNat) (floatOfInt U.toNat)) "B")) ∧
    format ⟨2 ^ 60 + 128, 0⟩ [WithForcedUnit KiB, WithDecimalUnits true] =
      .ok "1125899906842624.00 B" ∧
    format KiB [WithForcedUnit KiB, WithDecimalUnits true, WithLongUnits true] =
      .ok "1.00 Byte" ∧
    format ⟨2048, 0⟩ [WithForcedUnit KiB, WithDecimalUnits true, WithLongUnits true] =
      .ok "2.00 Bytes" := by
  refine ⟨?_, by decide, by decide, by decide⟩
  intro b U hU
  simp only [List.mem_cons, List.not_mem_nil, or_false] at hU
  have happ : applyOpts [WithForcedUnit U, WithDecimalUnits true] newFormatOptions =
      .ok ⟨DefaultFormatStr, some U, false, true⟩ := by
    rcases hU with rfl | rfl | rfl | rfl | rfl | rfl | rfl | rfl | rfl | rfl <;> decide
  have hlook : lookupName ShortDecimal U = none := by
    rcases hU with rfl | rfl | rfl | rfl | rfl | rfl | rfl | rfl | rfl | rfl <;> decide
  unfold format
  rw [happ]
  show Except.ok (renderFormatted b ⟨DefaultFormatStr, some U, false, true⟩) = _
  rw [renderFormatted_forced_short, hlook]

/-- C10 witness: the general statement applied to one KiB forced with the
decimal table. -/
theorem format_forced_unit_family_override_witness :
    format ⟨5000, 0⟩ [WithForcedUnit MiB, WithDecimalUnits true] =
      .ok (sprintfValUnit DefaultFormatStr
        (floatQuo (floatOfInt (Uint128.mk 5000 0).toNat)
          (floatOfInt (MiB).toNat)) "B") :=
  format_forced_unit_family_override.1 ⟨5000, 0⟩ MiB (by decide)

set_option maxRecDepth 8000 in
/-- C2: the round trip is broken by the formatter's float precision —
`big.NewFloat(0)` fixes the display quotient's precision at 53 bits, so
formatting (10^16 + 1)·B with B forced rounds the operand and renders
"10000000000000000.00 B", which parses back to 10^16 ≠ (10^16 + 1)·B,
violating the spec's exact-roundtrip property (§8) and its precision
requirement (§4.4 step 4: "precision must be sufficient that the rendered
value at the configured decimal places is correct"). -/
theorem format_roundtrip_loses_precision :
    Format (Uint128.ofNat ((10 ^ 16 + 1) * (B).toNat)) [WithForcedUnit B] =
      .ok "10000000000000000.00 B" ∧
    Parse "10000000000000000.00 B" = .ok (Uint128.ofNat (10 ^ 16)) ∧
    Uint128.ofNat (10 ^ 16) ≠ Uint128.ofNat ((10 ^ 16 + 1) * (B).toNat) :=
  ⟨by decide, by decide, by decide⟩

set_option maxHeartbeats 4000000 in
/-- C8 (amended): the switch-based and map-based unit lookups return the
same result on every input string; the nested-switch variant agrees with
them on every recognized unit string, but it matches by leading characters
only, so on some unrecognized strings it is not equivalent (and it indexes
past the end of short strings). -/
theorem unit_lookup_variants_amended :
    (∀ s : String, getMultiplierForUnitString s = getMultiplierByUnitStringMapVersion s) ∧
    (∀ u ∈ ValidUnits, getMultiplierByUnitStringNestedSwitchesVersion u =
      some (getMultiplierForUnitString u)) := by
  refine ⟨?_, by decide⟩
  intro s
  unfold getMultiplierForUnitString getMultiplierByUnitStringMapVersion
  generalize normalizeUnit s = u
  split <;>
    first
      | decide
      | (rename_i h0 h1 h2 h3 h4 h5 h6 h7 h8 h9 h10 h11 h12 h13 h14 h15 h16 h17 h18 h19 h20 h21 h22 h23 h24 h25 h26 h27 h28 h29 h30 h31 h32 h33 h34 h35 h36 h37 h38 h39 h40 h41 h42 h43 h44 h45 h46 h47 h48 h49 h50 h51 h52 h53 h54 h55 h56 h57 h58 h59 h60 h61 h62
         simp only [UnitStringToBytes, assocLookup, if_neg h0, if_neg h1, if_neg h2, if_neg h3, if_neg h4, if_neg h5, if_neg h6, if_neg h7, if_neg h8, if_neg h9, if_neg h10, if_neg h11, if_neg h12, if_neg h13, if_neg h14, if_neg h15, if_neg h16, if_neg h17, if_neg h18, if_neg h19, if_neg h20, if_neg h21, if_neg h22, if_neg h23, if_neg h24, if_neg h25, if_neg h26, if_neg h27, if_neg h28, if_neg h29, if_neg h30, if_neg h31, if_neg h32, if_neg h33, if_neg h34, if_neg h35, if_neg h36, if_neg h37, if_neg h38, if_neg h39, if_neg h40, if_neg h41, if_neg h42, if_neg h43, if_neg h44, if_neg h45, if_neg h46, if_neg h47, if_neg h48, if_neg h49, if_neg h50, if_neg h51, if_neg h52, if_neg h53, if_neg h54, if_neg h55, if_neg h56, if_neg h57, if_neg h58, if_neg h59, if_neg h60, if_neg h61, if_neg h62])

/-- C8 witness: the nested-switch agreement applied at "kb". -/
theorem unit_lookup_variants_amended_witness :
    getMultiplierByUnitStringNestedSwitchesVersion "kb" =
      some (getMultiplierForUnitString "kb") :=
  unit_lookup_variants_amended.2 "kb" (by decide)

/-- C8 counterexample: on "bb" the nested-switch variant prefix-matches
the leading 'b' and returns the byte unit, while the switch-based and
map-based lookups reject it — the three are not equivalent, and the
nested-switch variant does do prefix matching. -/
theorem unit_lookup_variants_counterexample :
    getMultiplierForUnitString "bb" = .error .unknownUnit ∧
    getMultiplierByUnitStringMapVersion "bb" = .error .unknownUnit ∧
    getMultiplierByUnitStringNestedSwitchesVersion "bb" = some (.ok B) :=
  ⟨by decide, by decide, by decide⟩

end Bytesize
